import Mathlib

/-!
Verification development for the EPUB volume merger (merge_epubs.py and
merge_epubs_gui.py).  The Python source is shallowly embedded: strings are
Lean `String`s, XML elements are a small mutual tree type, zip archives are
association lists from entry name to byte list, and Python dicts are
association lists with update-in-place semantics.  Each definition mirrors
the source function it is named after; line references point into
merge_epubs.py unless stated otherwise.  Definitions come first, theorems
afterwards.
-/

/-! ## String machinery: percent decoding and space encoding

`unquote` mirrors Python's `urllib.parse.unquote` at the byte level: every
"%XY" with two hex digits becomes the character with code 16*X+Y, anything
else is copied verbatim.  (Python additionally UTF-8-decodes the resulting
byte string; for the ASCII escapes the merger relies on - notably "%20" -
the two agree.) -/

def hexVal (c : Char) : Option Nat :=
  if '0' ≤ c ∧ c ≤ '9' then some (c.toNat - 48)
  else if 'a' ≤ c ∧ c ≤ 'f' then some (c.toNat - 87)
  else if 'A' ≤ c ∧ c ≤ 'F' then some (c.toNat - 55)
  else none

def unquoteList : List Char → List Char
  | [] => []
  | '%' :: c1 :: c2 :: rest =>
    match hexVal c1, hexVal c2 with
    | some a, some b => Char.ofNat (16 * a + b) :: unquoteList rest
    | _, _ => '%' :: unquoteList (c1 :: c2 :: rest)
  | c :: rest => c :: unquoteList rest

def unquote (s : String) : String := String.mk (unquoteList s.data)

/-- Mirrors `src_path.replace(" ", "%20")` (lines 133 and 174). -/
def encodeSpacesList : List Char → List Char
  | [] => []
  | c :: rest =>
    if c = ' ' then '%' :: '2' :: '0' :: encodeSpacesList rest
    else c :: encodeSpacesList rest

def encodeSpaces (s : String) : String := String.mk (encodeSpacesList s.data)

/-! ## Decimal rendering of volume indices

Mirrors Python's `str(vol_idx)` inside the f-strings `f"v..._"` and
`f"v.../"` at lines 484-485. -/

def digitChar (d : Nat) : Char := Char.ofNat (48 + d)

def natToDecList (n : Nat) : List Char :=
  if n < 10 then [digitChar n]
  else natToDecList (n / 10) ++ [digitChar (n % 10)]
termination_by n
decreasing_by
  exact Nat.div_lt_self (by omega) (by omega)

def natToDec (n : Nat) : String := String.mk (natToDecList n)

/-- Decimal parser used only to prove that `natToDec` is injective. -/
def decFrom (l : List Char) : Nat := l.foldl (fun acc c => acc * 10 + (c.toNat - 48)) 0

/-! ## Python dict as an ordered association list

`dictGet` is `d.get(k)`; `dictSet` is `d[k] = v` (overwrite in place,
append when the key is new, matching insertion-ordered Python dicts). -/

def dictGet (m : List (String × String)) (k : String) : Option String :=
  match m with
  | [] => none
  | (k', v) :: rest => if k' = k then some v else dictGet rest k

def dictSet (m : List (String × String)) (k v : String) : List (String × String) :=
  match m with
  | [] => [(k, v)]
  | (k', v') :: rest => if k' = k then (k, v) :: rest else (k', v') :: dictSet rest k v

/-! ## Namespacing scheme (lines 100-101 and 482-485)

Volume 0 keeps ids and hrefs verbatim; volume k > 0 gets the id front
piece "v" ++ str k ++ "_" and the href front piece "v" ++ str k ++ "/".
`applyPfx` mirrors `old_id if not id_prefix else id_prefix + old_id`. -/

def applyPfx (pfx s : String) : String := if pfx = "" then s else pfx ++ s

def idPfx (k : Nat) : String := if k = 0 then "" else "v" ++ natToDec k ++ "_"

def hrefPfx (k : Nat) : String := if k = 0 then "" else "v" ++ natToDec k ++ "/"

def newId (k : Nat) (oldId : String) : String := applyPfx (idPfx k) oldId

def newHref (k : Nat) (href : String) : String := applyPfx (hrefPfx k) href

/-! ## Archive path resolution (lines 116-157)

A zip archive is an association list entry-name to payload.  The copy loop
builds the candidate list [verbatim, percent-decoded, spaces-to-%20], each
variant appended only when not already present, and reads the first
candidate that exists; only when all fail does it raise (RuntimeError
"cannot find resource", spec name ResourceNotFound). -/

def joinDir (base rel : String) : String := if base = "" then rel else base ++ "/" ++ rel

def pathCandidates (srcPath : String) : List String :=
  let c1 := [srcPath]
  let decoded := unquote srcPath
  let c2 := if decoded ∈ c1 then c1 else c1 ++ [decoded]
  if srcPath.data.contains ' ' then
    let enc := encodeSpaces srcPath
    if enc ∈ c2 then c2 else c2 ++ [enc]
  else c2

def zipRead (arch : List (String × List Nat)) (p : String) : Option (List Nat) :=
  match arch with
  | [] => none
  | (q, d) :: rest => if q = p then some d else zipRead rest p

def tryCandidates (arch : List (String × List Nat)) : List String → Option (String × List Nat)
  | [] => none
  | c :: rest =>
    match zipRead arch c with
    | some d => some (c, d)
    | none => tryCandidates arch rest

def copyItemResolve (arch : List (String × List Nat)) (srcPath : String) :
    Option (String × List Nat) :=
  tryCandidates arch (pathCandidates srcPath)

/-! ## Manifest copy bookkeeping (lines 89-180)

A manifest item carries its id and href attributes (the only attributes
the bookkeeping reads).  `insertHrefVariants` is the three-key registration of
lines 165-176: original href, percent-decoded form, space-encoded form,
each written only when distinct from the original. -/

structure ManifestItem where
  id : String
  href : String
deriving DecidableEq, Repr

def insertHrefVariants (m : List (String × String)) (href nhref : String) :
    List (String × String) :=
  let m1 := dictSet m href nhref
  let decoded := unquote href
  let m2 := if decoded ≠ href then dictSet m1 decoded nhref else m1
  if href.data.contains ' ' then
    let enc := encodeSpaces href
    if enc ≠ href then dictSet m2 enc nhref else m2
  else m2

def buildHrefMap (pfx : String) (items : List ManifestItem) : List (String × String) :=
  items.foldl (fun m it => insertHrefVariants m it.href (applyPfx pfx it.href)) []

def idMapFor (k : Nat) (man : List ManifestItem) : List (String × String) :=
  man.map (fun it => (it.id, newId k it.id))

def idToHrefFor (k : Nat) (man : List ManifestItem) : List (String × String) :=
  man.map (fun it => (it.id, newHref k it.href))

/-! ## Spine append (lines 183-194)

A spine itemref is its attribute dict.  An itemref is appended only when
its idref attribute is present, non-empty ("if not old_idref"), found in
id_map, and the mapped value is non-empty ("if not new_idref"); the
appended element carries exactly one attribute, the new idref. -/

def resolveItemref (idMap : List (String × String)) (ir : List (String × String)) :
    Option String :=
  match dictGet ir "idref" with
  | none => none
  | some old =>
    if old = "" then none
    else
      match dictGet idMap old with
      | none => none
      | some nw => if nw = "" then none else some nw

def appendSpineItemrefs (spine : List (List (String × String)))
    (idMap : List (String × String)) : List (List (String × String)) :=
  spine.filterMap (fun ir => (resolveItemref idMap ir).map (fun nw => [("idref", nw)]))

def appendSpineIdrefs (spine : List (List (String × String)))
    (idMap : List (String × String)) : List String :=
  spine.filterMap (resolveItemref idMap)

/-! ## XML trees

Elements carry a local-name tag (namespaces already stripped, as
`_local_name` does), an attribute dict, and children; ET `text` content is
embedded as a text child node. -/

mutual
inductive XNode where
  | elem (tag : String) (attrs : List (String × String)) (children : XNodeList)
  | text (s : String)
deriving Repr
inductive XNodeList where
  | nil
  | cons (head : XNode) (tail : XNodeList)
deriving Repr
end

def XNodeList.ofList : List XNode → XNodeList
  | [] => .nil
  | x :: xs => .cons x (XNodeList.ofList xs)

/-! ## Href splitting and posix joining -/

/-- Mirrors `href.partition("#")`: the part before the first '#', whether a
'#' was found, and the part after it. -/
def splitAtHash : List Char → Option (List Char × List Char)
  | [] => none
  | c :: rest =>
    if c = '#' then some ([], rest)
    else (splitAtHash rest).map (fun p => (c :: p.1, p.2))

def partitionHash (s : String) : String × Bool × String :=
  match splitAtHash s.data with
  | none => (s, false, "")
  | some (a, b) => (String.mk a, true, String.mk b)

/-- PurePosixPath(d) / p for the plain relative paths the merger sees
(no duplicate-slash or dot normalization is modelled). -/
def posixJoin (d p : String) : String :=
  if p.data.head? = some '/' then p else d ++ "/" ++ p

/-- Helper for `parentDir`: the characters before the LAST '/' of the
list, or none when the list has no '/'. -/
def parentDirAux : List Char → Option (List Char)
  | [] => none
  | c :: rest =>
    match parentDirAux rest with
    | some t => some (c :: t)
    | none => if c = '/' then some [] else none

/-- PurePosixPath(p).parent rendered with "." mapped to "" (lines 257-258
and 314-315): everything before the last '/', or "" when there is none
(the merger only feeds it archive-relative paths). -/
def parentDir (p : String) : String :=
  match parentDirAux p.data with
  | none => ""
  | some l => String.mk l

/-- Line 270-273: `str(PurePosixPath(nav_dir_rel) / path) if nav_dir_rel
else path`. -/
def navFullRel (d path : String) : String := if d = "" then path else posixJoin d path

/-- Line 335-338: the ncx variant also requires `path` to be non-empty. -/
def ncxFullRel (d path : String) : String :=
  if d ≠ "" ∧ path ≠ "" then posixJoin d path else path

/-! ## Modern navigation document rewrite (lines 244-284)

`rewriteAnchorAttrs` is the body of the `for a in ol_copy.iter()` loop:
an anchor whose href is absent or empty, whose path part is "" or "#", or
whose joined path is NOT in href_map is left untouched; otherwise href is
replaced by the mapped value with the original fragment reattached. -/

def rewriteAnchorAttrs (m : List (String × String)) (navDir : String)
    (attrs : List (String × String)) : List (String × String) :=
  match dictGet attrs "href" with
  | none => attrs
  | some h =>
    if h = "" then attrs
    else
      match partitionHash h with
      | (path, sep, frag) =>
        if path = "" ∨ path = "#" then attrs
        else
          match dictGet m (navFullRel navDir path) with
          | none => attrs
          | some nh => dictSet attrs "href" (nh ++ (if sep then "#" ++ frag else ""))

mutual
def rewriteNode (m : List (String × String)) (navDir : String) : XNode → XNode
  | .text s => .text s
  | .elem tag attrs ch =>
    .elem tag (if tag = "a" then rewriteAnchorAttrs m navDir attrs else attrs)
      (rewriteNodes m navDir ch)
def rewriteNodes (m : List (String × String)) (navDir : String) : XNodeList → XNodeList
  | .nil => .nil
  | .cons x xs => .cons (rewriteNode m navDir x) (rewriteNodes m navDir xs)
end

/-- Line 244-249: the first direct child of the toc nav whose local name
is "ol" (text children cannot match). -/
def firstOl : XNodeList → Option XNode
  | .nil => none
  | .cons x xs =>
    match x with
    | .elem t _ _ => if t = "ol" then some x else firstOl xs
    | .text _ => firstOl xs

/-- Lines 244-284 after the toc nav element has been located: take its
first ol child (None when absent), deep-copy it, rewrite every anchor
against href_map, and wrap it under a li whose span shows the volume
title (default "第N卷"). -/
def buildVolumeNavFromNav (tocNav : XNode) (navHrefRel : String)
    (m : List (String × String)) (volTitle : String) (volIndex : Nat) : Option XNode :=
  match tocNav with
  | .text _ => none
  | .elem _ _ ch =>
    match firstOl ch with
    | none => none
    | some ol =>
      let navDir := parentDir navHrefRel
      let title := if volTitle = "" then "第" ++ natToDec (volIndex + 1) ++ "卷" else volTitle
      some (.elem "li" []
        (.cons (.elem "span" [] (.cons (.text title) .nil))
          (.cons (rewriteNode m navDir ol) .nil)))

/-! ## Legacy navigation map (NCX) rewrite (lines 287-361)

A navPoint is modelled at the parsed level: its first navLabel text, its
content element's src attribute, and its child navPoints (that is exactly
the data `build_li` extracts before building the li).  `buildLiNcx` is
`build_li`: when the joined path is found in href_map the anchor gets the
new href plus the original fragment, otherwise it keeps `src_attr`
verbatim; the anchor text is the label, or the href when the label is
empty ("label_text or href"). -/

mutual
inductive NavPoint where
  | mk (label : String) (src : String) (children : NavPointList)
deriving Repr
inductive NavPointList where
  | nil
  | cons (head : NavPoint) (tail : NavPointList)
deriving Repr
end

def NavPoint.label : NavPoint → String
  | .mk l _ _ => l

def NavPoint.src : NavPoint → String
  | .mk _ s _ => s

def NavPoint.children : NavPoint → NavPointList
  | .mk _ _ c => c

def NavPointList.isNil : NavPointList → Bool
  | .nil => true
  | .cons _ _ => false

mutual
def buildLiNcx (m : List (String × String)) (ncxDir : String) : NavPoint → XNode
  | .mk label src kids =>
    match partitionHash src with
    | (path, sep, frag) =>
      let fullRel := ncxFullRel ncxDir path
      let href :=
        match dictGet m fullRel with
        | some nh => nh ++ (if sep then "#" ++ frag else "")
        | none => src
      let anchor : XNode :=
        .elem "a" [("href", href)] (.cons (.text (if label = "" then href else label)) .nil)
      .elem "li" []
        (match kids with
         | .nil => .cons anchor .nil
         | .cons _ _ => .cons anchor (.cons (.elem "ol" [] (buildLiNcxList m ncxDir kids)) .nil))
def buildLiNcxList (m : List (String × String)) (ncxDir : String) : NavPointList → XNodeList
  | .nil => .nil
  | .cons np rest => .cons (buildLiNcx m ncxDir np) (buildLiNcxList m ncxDir rest)
end

/-- Lines 287-361 after the navMap has been located and parsed: an ol
whose children are the rewritten top-level navPoints. -/
def buildOlFromNcx (navMap : NavPointList) (ncxHrefRel : String)
    (m : List (String × String)) : XNode :=
  .elem "ol" [] (buildLiNcxList m (parentDir ncxHrefRel) navMap)

/-! ## Spine-order fallback TOC (lines 364-390)

One li per spine itemref whose idref resolves through id_to_href to a
non-empty href; the counter only advances for emitted entries, so titles
are 章节 1, 章节 2, ... over the kept entries. -/

def resolveFallbackRef (idToHref : List (String × String)) (ir : List (String × String)) :
    Option String :=
  match dictGet ir "idref" with
  | none => none
  | some old =>
    if old = "" then none
    else
      match dictGet idToHref old with
      | none => none
      | some h => if h = "" then none else some h

def chapLi (idx : Nat) (href : String) : XNode :=
  .elem "li" []
    (.cons (.elem "a" [("href", href)] (.cons (.text ("章节 " ++ natToDec idx)) .nil)) .nil)

def fallbackLis (idToHref : List (String × String)) :
    List (List (String × String)) → Nat → List XNode
  | [], _ => []
  | ir :: rest, idx =>
    match resolveFallbackRef idToHref ir with
    | none => fallbackLis idToHref rest idx
    | some h => chapLi idx h :: fallbackLis idToHref rest (idx + 1)

def buildVolumeNavLiFallback (spine : List (List (String × String)))
    (idToHref : List (String × String)) (volTitle : String) (volIndex : Nat) : XNode :=
  let title := if volTitle = "" then "第" ++ natToDec (volIndex + 1) ++ "卷" else volTitle
  .elem "li" []
    (.cons (.elem "span" [] (.cons (.text title) .nil))
      (.cons (.elem "ol" [] (XNodeList.ofList (fallbackLis idToHref spine 1))) .nil))

/-- Comparison definition (from the spec's wording, used to state what the
fallback emits): one chapter li per resolvable href, numbered from idx. -/
def chapterLis : List String → Nat → List XNode
  | [], _ => []
  | h :: rest, idx => chapLi idx h :: chapterLis rest (idx + 1)

def resolvedFallbackHrefs (idToHref : List (String × String))
    (spine : List (List (String × String))) : List String :=
  spine.filterMap (resolveFallbackRef idToHref)

/-- Lines 540-568: the per-volume TOC node is the nav-document result when
available, else the ncx ol wrapped under a titled li, else the fallback. -/
def chooseVolumeNav (navLi : Option XNode) (ncxOl : Option XNode) (volTitle : String)
    (fallback : XNode) : XNode :=
  match navLi with
  | some li => li
  | none =>
    match ncxOl with
    | some ol =>
      .elem "li" [] (.cons (.elem "span" [] (.cons (.text volTitle) .nil)) (.cons ol .nil))
    | none => fallback

/-! ## Orchestrator (merge_epubs, lines 430-590)

A volume is its archive, the package-descriptor path inside the archive,
and the parsed manifest and spine.  The error taxonomy follows the spec's
names: noInput models `SystemExit("No input EPUB files specified.")`
(line 433), inputNotFound models `FileNotFoundError` (line 56), and
resourceNotFound the RuntimeError of lines 151-154.  The model tracks the
ordered list of entry names written into the output archive; input
validation happens before any of them. -/

structure VolumeData where
  archive : List (String × List Nat)
  opfPath : String
  manifest : List ManifestItem
  spine : List (List (String × String))

inductive MergeError where
  | noInput
  | inputNotFound (path : String)
  | resourceNotFound (path : String)
deriving DecidableEq, Repr

/-- Mirrors `_ensure_input_paths` (lines 51-58): error at the first path
that is not a regular file. -/
def ensureInputPaths (isFile : String → Bool) : List String → Except MergeError (List String)
  | [] => Except.ok []
  | p :: ps =>
    if isFile p then
      match ensureInputPaths isFile ps with
      | Except.ok rest => Except.ok (p :: rest)
      | Except.error e => Except.error e
    else Except.error (MergeError.inputNotFound p)

/-- The file-writing part of `_copy_manifest_items` (lines 116-157): per
item, resolve the source bytes through the candidate list unless the
destination path was already written; `total` advances once per item
(line 178). -/
def copyVolumeFiles (arch : List (String × List Nat)) (srcBase destBase pfx : String) :
    List ManifestItem → List String → Nat → List String × Nat × Option MergeError
  | [], written, total => (written, total, none)
  | it :: rest, written, total =>
    let srcPath := joinDir srcBase it.href
    let dstPath := joinDir destBase (applyPfx pfx it.href)
    if written.contains dstPath then copyVolumeFiles arch srcBase destBase pfx rest written (total + 1)
    else
      match copyItemResolve arch srcPath with
      | some _ => copyVolumeFiles arch srcBase destBase pfx rest (written ++ [dstPath]) (total + 1)
      | none => (written, total, some (MergeError.resourceNotFound srcPath))

def processVolumes (destBase : String) :
    Nat → List VolumeData → List String → Nat → List String × Nat × Option MergeError
  | _, [], written, total => (written, total, none)
  | k, v :: vs, written, total =>
    match copyVolumeFiles v.archive (parentDir v.opfPath) destBase (hrefPfx k) v.manifest
        written total with
    | (w, t, none) => processVolumes destBase (k + 1) vs w t
    | (w, t, some e) => (w, t, some e)

/-- Mirrors `merge_epubs` (lines 430-590) at the level of input validation and
output-archive writes: the empty check and `_ensure_input_paths` run
before the output zip is opened; afterwards come the mimetype entry, the
container pointer, every copied resource, nav-merged.xhtml, and the OPF
written back to the first volume's descriptor path. -/
def mergeEpubsModel (isFile : String → Bool) (load : String → VolumeData)
    (inputs : List String) : List String × Except MergeError Nat :=
  if inputs = [] then ([], Except.error MergeError.noInput)
  else
    match ensureInputPaths isFile inputs with
    | Except.error e => ([], Except.error e)
    | Except.ok paths =>
      match paths.map load with
      | [] => ([], Except.error MergeError.noInput)
      | v0 :: vrest =>
        let destBase := parentDir v0.opfPath
        let w0 := ["mimetype", "META-INF/container.xml"]
        match processVolumes destBase 0 (v0 :: vrest) w0 0 with
        | (w, total, none) =>
          (w ++ [joinDir destBase "nav-merged.xhtml", v0.opfPath], Except.ok total)
        | (w, _, some e) => (w, Except.error e)

/-! ## Merged manifest and spine views (lines 94-106, 183-194, 482-485,
573-581)

The merged manifest ids are the namespaced ids of every volume in order,
plus the synthesized nav item id "nav"; the merged hrefs likewise plus
"nav-merged.xhtml".  The merged spine is the concatenation of every
volume's appended itemrefs. -/

def mergedIdsFrom : Nat → List VolumeData → List String
  | _, [] => []
  | k, v :: vs => v.manifest.map (fun it => newId k it.id) ++ mergedIdsFrom (k + 1) vs

def mergedHrefsFrom : Nat → List VolumeData → List String
  | _, [] => []
  | k, v :: vs => v.manifest.map (fun it => newHref k it.href) ++ mergedHrefsFrom (k + 1) vs

def mergedManifestIds (vols : List VolumeData) : List String :=
  mergedIdsFrom 0 vols ++ ["nav"]

def mergedManifestHrefs (vols : List VolumeData) : List String :=
  mergedHrefsFrom 0 vols ++ ["nav-merged.xhtml"]

def mergedSpineFrom : Nat → List VolumeData → List String
  | _, [] => []
  | k, v :: vs => appendSpineIdrefs v.spine (idMapFor k v.manifest) ++ mergedSpineFrom (k + 1) vs

def mergedSpineIdrefs (vols : List VolumeData) : List String := mergedSpineFrom 0 vols

/-! ## GUI backend binding (merge_epubs_gui.py lines 20-26)

The GUI does `from merge_epubs import merge_epubs, extract_toc_as_flat_list,
extract_cover_image` and on ImportError rebinds all three names to stubs;
the stub for the TOC preview returns the empty list for every path.
`mergeEpubsModuleExports` lists the top-level names merge_epubs.py
actually defines. -/

def mergeEpubsModuleExports : List String :=
  ["OPF_NS", "DC_NS", "CONTAINER_NS", "NSMAP", "EPUB_MIMETYPE", "PathLike",
   "get_opf_path", "build_base_opf", "_ensure_input_paths", "_copy_manifest_items",
   "_append_spine_entries", "_local_name", "_build_volume_nav_from_nav_xhtml",
   "_build_ol_from_ncx", "_build_volume_nav_li_fallback", "_extract_volume_title",
   "_build_merged_nav_html", "merge_epubs", "main"]

def guiImportNames : List String :=
  ["merge_epubs", "extract_toc_as_flat_list", "extract_cover_image"]

def guiImportSucceeds : Bool :=
  guiImportNames.all (fun n => mergeEpubsModuleExports.contains n)

/-- The fallback stub bound to the name when the import fails
(merge_epubs_gui.py line 25): it returns no TOC entries for any path. -/
def extract_toc_as_flat_list (p : String) : List (String × String) := []

/-! ## Shape erasure (used to state that the nav rewrite preserves the
tree structure) -/

mutual
inductive XShape where
  | elem (tag : String) (children : XShapeList)
  | text (s : String)
deriving Repr
inductive XShapeList where
  | nil
  | cons (head : XShape) (tail : XShapeList)
deriving Repr
end

mutual
def shape : XNode → XShape
  | .text s => .text s
  | .elem t _ ch => .elem t (shapes ch)
def shapes : XNodeList → XShapeList
  | .nil => .nil
  | .cons x xs => .cons (shape x) (shapes xs)
end

/-- True when a direct child element with tag "ol" is present. -/
def hasOlChild : XNodeList → Bool
  | .nil => false
  | .cons (.elem t _ _) rest => (t = "ol") || hasOlChild rest
  | .cons (.text _) rest => hasOlChild rest

def hasLiWithOl : XNodeList → Bool
  | .nil => false
  | .cons (.elem t _ inner) rest =>
    (if t = "li" then hasOlChild inner else false) || hasLiWithOl rest
  | .cons (.text _) rest => hasLiWithOl rest

/-- True when some li child of this ol itself contains an ol child, that
is when the list is nested rather than flat. -/
def olHasNestedList : XNode → Bool
  | .elem _ _ ch => hasLiWithOl ch
  | .text _ => false

/-! ## Helper lemmas: strings -/

/-- A literal space survives percent decoding (a space is not a hex digit,
so it is never consumed as part of a percent escape). -/
theorem mem_space_unquoteList : ∀ l : List Char, ' ' ∈ l → ' ' ∈ unquoteList l := by
  intro l hl
  induction l using unquoteList.induct with
  | case1 => cases hl
  | case2 c1 c2 rest a b ha hb ih =>
    simp only [List.mem_cons] at hl
    simp only [unquoteList, ha, hb, List.mem_cons]
    rcases hl with h | h | h | h
    · exact absurd h (by decide)
    · rw [← h] at hb; simp [hexVal] at hb
    · rw [← h] at ha; simp [hexVal] at ha
    · exact Or.inr (ih h)
  | case3 c1 c2 rest hno ih =>
    simp only [unquoteList, List.mem_cons] at *
    rcases hl with h | h
    · exact absurd h (by intro hc; cases hc)
    · exact Or.inr (ih h)
  | case4 c rest hne ih =>
    simp only [unquoteList, List.mem_cons] at *
    rcases hl with h | h
    · exact Or.inl h
    · exact Or.inr (ih h)

/-- Space encoding leaves no literal space behind. -/
theorem not_mem_space_encodeSpacesList : ∀ l : List Char, ' ' ∉ encodeSpacesList l := by
  intro l
  induction l with
  | nil => simp [encodeSpacesList]
  | cons c rest ih =>
    by_cases hc : c = ' '
    · simp [encodeSpacesList, hc, ih]
    · simp [encodeSpacesList, hc, ih, Ne.symm hc]

/-- If a string has no space, `encodeSpaces` is the identity. -/
theorem encodeSpacesList_of_no_space : ∀ l : List Char, ' ' ∉ l → encodeSpacesList l = l := by
  intro l hl
  induction l with
  | nil => rfl
  | cons c rest ih =>
    simp only [List.mem_cons, not_or] at hl
    simp [encodeSpacesList, Ne.symm hl.1, ih hl.2]

theorem strExt {a b : String} (h : a.data = b.data) : a = b := by
  cases a; cases b; exact congrArg String.mk h

theorem strDataAppend (a b : String) : (a ++ b).data = a.data ++ b.data := by
  cases a; cases b; rfl

theorem encodeSpaces_of_no_space {s : String} (h : s.data.contains ' ' = false) :
    encodeSpaces s = s := by
  apply strExt
  have hm : ' ' ∉ s.data := by simpa using h
  simpa [encodeSpaces] using encodeSpacesList_of_no_space s.data hm

theorem encodeSpaces_ne_self {s : String} (h : s.data.contains ' ' = true) :
    encodeSpaces s ≠ s := by
  intro he
  have hm : ' ' ∈ s.data := by simpa using h
  have hd : encodeSpacesList s.data = s.data := by
    have := congrArg String.data he
    simpa [encodeSpaces] using this
  exact not_mem_space_encodeSpacesList s.data (by rw [hd]; exact hm)

theorem unquote_mem_space {s : String} (h : s.data.contains ' ' = true) :
    (unquote s).data.contains ' ' = true := by
  have hm : ' ' ∈ s.data := by simpa using h
  simpa [unquote] using mem_space_unquoteList s.data hm

/-! ## Helper lemmas: decimal rendering -/

theorem digitChar_toNat {d : Nat} (hd : d < 10) : (digitChar d).toNat = 48 + d := by
  interval_cases d <;> decide

theorem decFrom_append_digit (l : List Char) (c : Char) :
    decFrom (l ++ [c]) = decFrom l * 10 + (c.toNat - 48) := by
  simp [decFrom, List.foldl_append]

theorem decFrom_natToDecList : ∀ n : Nat, decFrom (natToDecList n) = n := by
  intro n
  induction n using Nat.strong_induction_on with
  | _ n ih =>
    rw [natToDecList]
    by_cases h : n < 10
    · simp only [h, if_true]
      simp [decFrom, digitChar_toNat h]
    · simp only [h, if_false]
      rw [decFrom_append_digit, ih (n / 10) (Nat.div_lt_self (by omega) (by omega)),
        digitChar_toNat (Nat.mod_lt n (by omega))]
      omega

theorem natToDecList_inj {m n : Nat} (h : natToDecList m = natToDecList n) : m = n := by
  have := congrArg decFrom h
  rwa [decFrom_natToDecList, decFrom_natToDecList] at this

/-! ## Helper lemmas: dict operations -/

theorem dictGet_dictSet_self (m : List (String × String)) (k v : String) :
    dictGet (dictSet m k v) k = some v := by
  induction m with
  | nil => simp [dictSet, dictGet]
  | cons p rest ih =>
    by_cases hk : p.1 = k
    · simp [dictSet, dictGet, hk]
    · simp [dictSet, dictGet, hk, ih]

theorem dictGet_dictSet_ne (m : List (String × String)) (k v k' : String) (h : k' ≠ k) :
    dictGet (dictSet m k v) k' = dictGet m k' := by
  induction m with
  | nil => simp [dictSet, dictGet, Ne.symm h]
  | cons p rest ih =>
    by_cases hk : p.1 = k
    · simp [dictSet, dictGet, hk, Ne.symm h]
    · by_cases hk' : p.1 = k' <;> simp [dictSet, dictGet, hk, hk', ih, h]

theorem dictGet_mem {m : List (String × String)} {k v : String}
    (h : dictGet m k = some v) : (k, v) ∈ m := by
  induction m with
  | nil => simp [dictGet] at h
  | cons p rest ih =>
    rcases p with ⟨k1, v1⟩
    by_cases hk : k1 = k
    · subst hk
      have h' : some v1 = some v := by simpa [dictGet] using h
      cases h'
      exact List.mem_cons_self _ _
    · simp only [dictGet, hk, if_false] at h
      exact List.mem_cons_of_mem _ (ih h)

/-! ## Helper lemmas: the namespacing scheme -/

theorem idPfx_zero : idPfx 0 = "" := rfl

theorem hrefPfx_zero : hrefPfx 0 = "" := rfl

theorem vPfx_data (sep : String) (k : Nat) :
    ("v" ++ natToDec k ++ sep).data = 'v' :: (natToDecList k ++ sep.data) := by
  simp [strDataAppend, natToDec]

theorem idPfx_ne_empty {k : Nat} (h : k ≠ 0) : idPfx k ≠ "" := by
  intro he
  have := congrArg String.data he
  rw [idPfx, if_neg h] at this
  rw [vPfx_data] at this
  cases this

theorem hrefPfx_ne_empty {k : Nat} (h : k ≠ 0) : hrefPfx k ≠ "" := by
  intro he
  have := congrArg String.data he
  rw [hrefPfx, if_neg h] at this
  rw [vPfx_data] at this
  cases this

theorem newId_zero (s : String) : newId 0 s = s := by
  simp [newId, idPfx_zero, applyPfx]

theorem newHref_zero (s : String) : newHref 0 s = s := by
  simp [newHref, hrefPfx_zero, applyPfx]

theorem newId_pos {k : Nat} (h : k ≠ 0) (s : String) :
    newId k s = "v" ++ natToDec k ++ "_" ++ s := by
  rw [newId, applyPfx, if_neg (idPfx_ne_empty h), idPfx, if_neg h]

theorem newHref_pos {k : Nat} (h : k ≠ 0) (s : String) :
    newHref k s = "v" ++ natToDec k ++ "/" ++ s := by
  rw [newHref, applyPfx, if_neg (hrefPfx_ne_empty h), hrefPfx, if_neg h]

theorem vPfx_append_inj {sep s : String} {j k : Nat}
    (h : "v" ++ natToDec j ++ sep ++ s = "v" ++ natToDec k ++ sep ++ s) : j = k := by
  have hd := congrArg String.data h
  simp only [strDataAppend, natToDec, List.append_assoc] at hd
  have hd' : natToDecList j ++ (sep.data ++ s.data) =
      natToDecList k ++ (sep.data ++ s.data) := List.append_cancel_left hd
  exact natToDecList_inj (List.append_cancel_right hd')

theorem newId_inj {j k : Nat} {s : String} (h : newId j s = newId k s) : j = k := by
  by_cases hj : j = 0 <;> by_cases hk : k = 0
  · omega
  · subst hj
    rw [newId_zero, newId_pos hk] at h
    have hd := congrArg String.data h
    simp only [strDataAppend, natToDec, List.append_assoc, List.cons_append,
      List.nil_append] at hd
    have := congrArg List.length hd
    simp [List.length_append] at this
    omega
  · subst hk
    rw [newId_zero, newId_pos hj] at h
    have hd := congrArg String.data h
    simp only [strDataAppend, natToDec, List.append_assoc, List.cons_append,
      List.nil_append] at hd
    have := congrArg List.length hd
    simp [List.length_append] at this
    omega
  · rw [newId_pos hj, newId_pos hk] at h
    exact vPfx_append_inj h

theorem newHref_inj {j k : Nat} {s : String} (h : newHref j s = newHref k s) : j = k := by
  by_cases hj : j = 0 <;> by_cases hk : k = 0
  · omega
  · subst hj
    rw [newHref_zero, newHref_pos hk] at h
    have hd := congrArg String.data h
    simp only [strDataAppend, natToDec, List.append_assoc, List.cons_append,
      List.nil_append] at hd
    have := congrArg List.length hd
    simp [List.length_append] at this
    omega
  · subst hk
    rw [newHref_zero, newHref_pos hj] at h
    have hd := congrArg String.data h
    simp only [strDataAppend, natToDec, List.append_assoc, List.cons_append,
      List.nil_append] at hd
    have := congrArg List.length hd
    simp [List.length_append] at this
    omega
  · rw [newHref_pos hj, newHref_pos hk] at h
    exact vPfx_append_inj h

/-! ## Helper lemmas: merged manifest and spine views -/

theorem mem_mergedIdsFrom : ∀ (vols : List VolumeData) (b k : Nat) (hk : k < vols.length)
    (it : ManifestItem), it ∈ (vols.get ⟨k, hk⟩).manifest →
    newId (b + k) it.id ∈ mergedIdsFrom b vols := by
  intro vols
  induction vols with
  | nil => intro b k hk; exact absurd hk (by simp)
  | cons v vs ih =>
    intro b k hk it hmem
    cases k with
    | zero =>
      simp only [mergedIdsFrom]
      apply List.mem_append_left
      exact List.mem_map_of_mem _ (by simpa using hmem)
    | succ q =>
      simp only [mergedIdsFrom]
      apply List.mem_append_right
      have hq : q < vs.length := by simpa using hk
      have := ih (b + 1) q hq it (by simpa using hmem)
      have harith : b + (q + 1) = b + 1 + q := by omega
      rw [harith]
      exact this

theorem mem_mergedHrefsFrom : ∀ (vols : List VolumeData) (b k : Nat) (hk : k < vols.length)
    (it : ManifestItem), it ∈ (vols.get ⟨k, hk⟩).manifest →
    newHref (b + k) it.href ∈ mergedHrefsFrom b vols := by
  intro vols
  induction vols with
  | nil => intro b k hk; exact absurd hk (by simp)
  | cons v vs ih =>
    intro b k hk it hmem
    cases k with
    | zero =>
      simp only [mergedHrefsFrom]
      apply List.mem_append_left
      exact List.mem_map_of_mem _ (by simpa using hmem)
    | succ q =>
      simp only [mergedHrefsFrom]
      apply List.mem_append_right
      have hq : q < vs.length := by simpa using hk
      have := ih (b + 1) q hq it (by simpa using hmem)
      have harith : b + (q + 1) = b + 1 + q := by omega
      rw [harith]
      exact this

theorem resolveItemref_eq_some {idMap ir : List (String × String)} {r : String}
    (h : resolveItemref idMap ir = some r) :
    ∃ old, dictGet ir "idref" = some old ∧ dictGet idMap old = some r := by
  unfold resolveItemref at h
  cases hg : dictGet ir "idref" with
  | none => rw [hg] at h; cases h
  | some old =>
    rw [hg] at h
    by_cases ho : old = ""
    · simp [ho] at h
    · simp only [ho, if_false] at h
      cases hm : dictGet idMap old with
      | none => rw [hm] at h; cases h
      | some nw =>
        rw [hm] at h
        by_cases hn : nw = ""
        · simp [hn] at h
        · simp only [hn, if_false] at h
          cases h
          exact ⟨old, rfl, hm⟩

theorem idMapFor_val {b : Nat} {man : List ManifestItem} {old r : String}
    (h : dictGet (idMapFor b man) old = some r) :
    ∃ it, it ∈ man ∧ r = newId b it.id := by
  have hmem := dictGet_mem h
  simp only [idMapFor, List.mem_map] at hmem
  obtain ⟨it, hit, heq⟩ := hmem
  refine ⟨it, hit, ?_⟩
  have := congrArg Prod.snd heq
  exact this.symm

theorem mem_mergedSpineFrom : ∀ (vols : List VolumeData) (b : Nat) (r : String),
    r ∈ mergedSpineFrom b vols → r ∈ mergedIdsFrom b vols := by
  intro vols
  induction vols with
  | nil => intro b r h; simpa [mergedSpineFrom] using h
  | cons v vs ih =>
    intro b r h
    simp only [mergedSpineFrom, List.mem_append] at h
    simp only [mergedIdsFrom, List.mem_append]
    rcases h with h | h
    · left
      simp only [appendSpineIdrefs, List.mem_filterMap] at h
      obtain ⟨ir, _, hres⟩ := h
      obtain ⟨old, _, hget⟩ := resolveItemref_eq_some hres
      obtain ⟨it, hit, hr⟩ := idMapFor_val hget
      rw [hr]
      exact List.mem_map_of_mem _ hit
    · exact Or.inr (ih (b + 1) r h)

/-! ## Claim C1 -/

/-- C1: merging N >= 2 volumes that each contain a manifest entry with id
"x" and href "text/a.xhtml" puts N pairwise-distinct ids and N
pairwise-distinct destination hrefs into the merged manifest: volume 0
keeps "x" and "text/a.xhtml" verbatim, and volume k > 0 gets id
"v" ++ str k ++ "_x" and href "v" ++ str k ++ "/text/a.xhtml". -/
theorem c1_manifest_namespacing_collision_free (N : Nat) (vols : List VolumeData)
    (hN : 2 ≤ N) (hlen : vols.length = N)
    (hx : ∀ (k : Nat) (hk : k < vols.length),
      (⟨"x", "text/a.xhtml"⟩ : ManifestItem) ∈ (vols.get ⟨k, hk⟩).manifest) :
    (∀ k, k < N → newId k "x" ∈ mergedManifestIds vols ∧
        newHref k "text/a.xhtml" ∈ mergedManifestHrefs vols)
    ∧ ((List.range N).map (fun k => newId k "x")).Nodup
    ∧ ((List.range N).map (fun k => newHref k "text/a.xhtml")).Nodup
    ∧ newId 0 "x" = "x" ∧ newHref 0 "text/a.xhtml" = "text/a.xhtml"
    ∧ (∀ k, k ≠ 0 → newId k "x" = "v" ++ natToDec k ++ "_x" ∧
        newHref k "text/a.xhtml" = "v" ++ natToDec k ++ "/text/a.xhtml") := by
  refine ⟨?_, ?_, ?_, newId_zero _, newHref_zero _, ?_⟩
  · intro k hkN
    have hk : k < vols.length := by omega
    constructor
    · have h := mem_mergedIdsFrom vols 0 k hk _ (hx k hk)
      simp only [Nat.zero_add] at h
      simp only [mergedManifestIds]
      exact List.mem_append_left _ h
    · have h := mem_mergedHrefsFrom vols 0 k hk _ (hx k hk)
      simp only [Nat.zero_add] at h
      simp only [mergedManifestHrefs]
      exact List.mem_append_left _ h
  · exact List.Nodup.map (fun a b hab => newId_inj hab) (List.nodup_range N)
  · exact List.Nodup.map (fun a b hab => newHref_inj hab) (List.nodup_range N)
  · intro k hk
    constructor
    · rw [newId_pos hk, String.append_assoc]
      rfl
    · rw [newHref_pos hk, String.append_assoc]
      rfl

theorem c1_manifest_namespacing_collision_free_witness :
    newId 0 "x" = "x" ∧ ((List.range 2).map (fun k => newId k "x")).Nodup := by
  have h := c1_manifest_namespacing_collision_free 2
    [⟨[], "content.opf", [⟨"x", "text/a.xhtml"⟩], []⟩,
     ⟨[], "content.opf", [⟨"x", "text/a.xhtml"⟩], []⟩]
    (by omega) rfl (by decide)
  exact ⟨h.2.2.2.1, h.2.1⟩

/-! ## Claim C6 -/

/-- C6 counterexample: the claim asserts exactly one manifest entry per
merged-spine idref in every merge.  A single volume whose own manifest id
is "nav" breaks it: the merged spine references "nav", and the merged
manifest holds two entries with id "nav" (the copied one and the
synthesized navigation item of line 575-581). -/
theorem c6_counterexample :
    "nav" ∈ mergedSpineIdrefs [⟨[], "c.opf", [⟨"nav", "nav.xhtml"⟩], [[("idref", "nav")]]⟩]
    ∧ (mergedManifestIds
        [⟨[], "c.opf", [⟨"nav", "nav.xhtml"⟩], [[("idref", "nav")]]⟩]).count "nav" = 2 := by
  constructor
  · decide
  · decide

/-- C6 (amended): every idref in the merged spine has at least one
matching manifest entry (exactly one is not guaranteed: a source id like
"nav" can collide with the synthesized navigation entry), and every
source spine reference whose id did not survive copying is silently
dropped rather than appended. -/
theorem c6_spine_refs_resolve (vols : List VolumeData) :
    (∀ r, r ∈ mergedSpineIdrefs vols → r ∈ mergedManifestIds vols)
    ∧ (∀ (idMap : List (String × String)) (l1 l2 : List (List (String × String)))
        (ir : List (String × String)),
        resolveItemref idMap ir = none →
        appendSpineIdrefs (l1 ++ ir :: l2) idMap =
          appendSpineIdrefs l1 idMap ++ appendSpineIdrefs l2 idMap) := by
  constructor
  · intro r hr
    simp only [mergedManifestIds, List.mem_append]
    exact Or.inl (mem_mergedSpineFrom vols 0 r hr)
  · intro idMap l1 l2 ir hres
    simp [appendSpineIdrefs, List.filterMap_append, List.filterMap_cons, hres]

theorem c6_spine_refs_resolve_witness :
    "a" ∈ mergedManifestIds [⟨[], "c.opf", [⟨"a", "a.xhtml"⟩], [[("idref", "a")]]⟩] :=
  (c6_spine_refs_resolve [⟨[], "c.opf", [⟨"a", "a.xhtml"⟩], [[("idref", "a")]]⟩]).1
    "a" (by decide)

/-! ## Claim C10 -/

/-- C10: an itemref appended to the merged spine carries only the idref
attribute; every other source attribute (for example linear="no") is
discarded (line 194 builds the new element with the single attribute). -/
theorem c10_spine_itemref_only_idref
    (sp : List (List (String × String))) (idMap : List (String × String)) :
    (∀ e, e ∈ appendSpineItemrefs sp idMap → ∃ v, e = [("idref", v)])
    ∧ appendSpineItemrefs [[("idref", "a"), ("linear", "no")]] [("a", "a")] =
        [[("idref", "a")]] := by
  constructor
  · intro e he
    simp only [appendSpineItemrefs, List.mem_filterMap] at he
    obtain ⟨ir, _, hres⟩ := he
    cases hr : resolveItemref idMap ir with
    | none => rw [hr] at hres; cases hres
    | some nw =>
      rw [hr] at hres
      simp only [Option.map_some'] at hres
      cases hres
      exact ⟨nw, rfl⟩
  · decide

theorem c10_spine_itemref_only_idref_witness :
    ∃ v, ([("idref", "a")] : List (String × String)) = [("idref", v)] :=
  (c10_spine_itemref_only_idref [[("idref", "a"), ("linear", "no")]] [("a", "a")]).1
    [("idref", "a")] (by decide)

/-! ## Claim C4 -/

theorem encodeSpaces_ne_unquote {p : String} (h : p.data.contains ' ' = true) :
    encodeSpaces p ≠ unquote p := by
  intro he
  have h1 : ' ' ∈ (unquote p).data :=
    mem_space_unquoteList p.data (by simpa using h)
  rw [← he] at h1
  exact not_mem_space_encodeSpacesList p.data (by simpa [encodeSpaces] using h1)

theorem tryCandidates_eq_none (arch : List (String × List Nat)) :
    ∀ cs : List String, tryCandidates arch cs = none ↔ ∀ c ∈ cs, zipRead arch c = none := by
  intro cs
  induction cs with
  | nil => simp [tryCandidates]
  | cons c rest ih =>
    cases hz : zipRead arch c with
    | some d => simp [tryCandidates, hz]
    | none => simp [tryCandidates, hz, ih]

theorem tryCandidates_first (arch : List (String × List Nat)) :
    ∀ (l1 : List String) (c : String) (l2 : List String) (d : List Nat),
    (∀ c2 ∈ l1, zipRead arch c2 = none) → zipRead arch c = some d →
    tryCandidates arch (l1 ++ c :: l2) = some (c, d) := by
  intro l1
  induction l1 with
  | nil =>
    intro c l2 d _ hc
    simp [tryCandidates, hc]
  | cons x xs ih =>
    intro c l2 d h1 hc
    have hx : zipRead arch x = none := h1 x (by simp)
    simp only [List.cons_append, tryCandidates, hx]
    exact ih c l2 d (fun c2 h2 => h1 c2 (by simp [h2])) hc

theorem pathCandidates_characterization (p : String) :
    pathCandidates p =
      if p.data.contains ' ' then
        (if unquote p = p then [p, encodeSpaces p] else [p, unquote p, encodeSpaces p])
      else (if unquote p = p then [p] else [p, unquote p]) := by
  by_cases hs : p.data.contains ' ' <;> by_cases hd : unquote p = p
  · have hep : encodeSpaces p ≠ p := encodeSpaces_ne_self hs
    simp [pathCandidates, hs, hd, hep]
  · have hep : encodeSpaces p ≠ p := encodeSpaces_ne_self hs
    have heu : encodeSpaces p ≠ unquote p := encodeSpaces_ne_unquote hs
    simp [pathCandidates, hs, hd, hep, heu]
  · have hsm : ' ' ∉ p.data := by simpa using hs
    simp [pathCandidates, hs, hd, hsm]
  · have hsm : ' ' ∉ p.data := by simpa using hs
    simp [pathCandidates, hs, hd, hsm]

/-- C4: for a manifest entry whose destination is not yet written, the
source is located by trying (1) the nominal path verbatim, (2) its
percent-decoded form, (3) the form with literal spaces as %20, in that
exact order (duplicates collapsed); the first candidate present in the
archive supplies the bytes, and the copy fails with ResourceNotFound
exactly when every candidate is absent. -/
theorem c4_resolver_candidate_policy (arch : List (String × List Nat)) (p : String) :
    (pathCandidates p =
      if p.data.contains ' ' then
        (if unquote p = p then [p, encodeSpaces p] else [p, unquote p, encodeSpaces p])
      else (if unquote p = p then [p] else [p, unquote p]))
    ∧ (copyItemResolve arch p = none ↔ ∀ c ∈ pathCandidates p, zipRead arch c = none)
    ∧ (∀ (l1 : List String) (c : String) (l2 : List String) (d : List Nat),
        pathCandidates p = l1 ++ c :: l2 →
        (∀ c2 ∈ l1, zipRead arch c2 = none) →
        zipRead arch c = some d →
        copyItemResolve arch p = some (c, d))
    ∧ (∀ (srcBase destBase pfx : String) (it : ManifestItem)
        (rest : List ManifestItem) (written : List String) (total : Nat),
        written.contains (joinDir destBase (applyPfx pfx it.href)) = false →
        copyItemResolve arch (joinDir srcBase it.href) = none →
        copyVolumeFiles arch srcBase destBase pfx (it :: rest) written total =
          (written, total, some (MergeError.resourceNotFound (joinDir srcBase it.href)))) := by
  refine ⟨pathCandidates_characterization p, tryCandidates_eq_none arch _, ?_, ?_⟩
  · intro l1 c l2 d hcand h1 hc
    rw [copyItemResolve, hcand]
    exact tryCandidates_first arch l1 c l2 d h1 hc
  · intro srcBase destBase pfx it rest written total hw hres
    have hw2 : joinDir destBase (applyPfx pfx it.href) ∉ written := by simpa using hw
    simp [copyVolumeFiles, hw, hw2, hres]

theorem c4_resolver_candidate_policy_witness :
    copyItemResolve [("a%20b.html", [7])] "a b.html" = some ("a%20b.html", [7]) :=
  (c4_resolver_candidate_policy [("a%20b.html", [7])] "a b.html").2.2.1
    ["a b.html"] "a%20b.html" [] [7] (by decide) (by decide) (by decide)

/-! ## Claim C5 -/

/-- C5: registering a copied entry records the original href, its
percent-decoded form and its space-encoded form, all mapped to the same
destination href; consequently a manifest href "Chapter 1.html" and a TOC
href "Chapter%201.html" naming the same resource look up to the same
destination href. -/
theorem c5_href_map_variant_keys (m : List (String × String)) (href nhref : String) :
    (dictGet (insertHrefVariants m href nhref) href = some nhref
      ∧ dictGet (insertHrefVariants m href nhref) (unquote href) = some nhref
      ∧ dictGet (insertHrefVariants m href nhref) (encodeSpaces href) = some nhref)
    ∧ dictGet (buildHrefMap "v1/" [⟨"c1", "Chapter 1.html"⟩]) "Chapter%201.html" =
        some "v1/Chapter 1.html"
    ∧ dictGet (buildHrefMap "v1/" [⟨"c1", "Chapter 1.html"⟩]) "Chapter 1.html" =
        some "v1/Chapter 1.html" := by
  refine ⟨?_, by decide, by decide⟩
  simp only [insertHrefVariants]
  split_ifs with h1 h2 h3 h4 h5
  · -- space present, enc distinct, decoded distinct
    refine ⟨?_, ?_, ?_⟩
    · rw [dictGet_dictSet_ne _ _ _ _ (Ne.symm h2),
        dictGet_dictSet_ne _ _ _ _ (fun he => h3 he.symm)]
      exact dictGet_dictSet_self m href nhref
    · by_cases hde : unquote href = encodeSpaces href
      · rw [hde]
        exact dictGet_dictSet_self _ _ _
      · rw [dictGet_dictSet_ne _ _ _ _ hde]
        exact dictGet_dictSet_self _ _ _
    · exact dictGet_dictSet_self _ _ _
  · -- space present, enc distinct, decoded identical
    have hqe : unquote href = href := not_not.mp h3
    refine ⟨?_, ?_, ?_⟩
    · rw [dictGet_dictSet_ne _ _ _ _ (Ne.symm h2)]
      exact dictGet_dictSet_self m href nhref
    · rw [hqe, dictGet_dictSet_ne _ _ _ _ (Ne.symm h2)]
      exact dictGet_dictSet_self m href nhref
    · exact dictGet_dictSet_self _ _ _
  · -- space present but enc = href: impossible
    exact absurd (not_not.mp h2) (encodeSpaces_ne_self h1)
  · exact absurd (not_not.mp h2) (encodeSpaces_ne_self h1)
  · -- no space, decoded distinct
    have hee : encodeSpaces href = href := encodeSpaces_of_no_space (by simpa using h1)
    refine ⟨?_, ?_, ?_⟩
    · rw [dictGet_dictSet_ne _ _ _ _ (fun he => h5 he.symm)]
      exact dictGet_dictSet_self m href nhref
    · exact dictGet_dictSet_self _ _ _
    · rw [hee, dictGet_dictSet_ne _ _ _ _ (fun he => h5 he.symm)]
      exact dictGet_dictSet_self m href nhref
  · -- no space, decoded identical
    have hee : encodeSpaces href = href := encodeSpaces_of_no_space (by simpa using h1)
    have hqe : unquote href = href := not_not.mp h5
    exact ⟨dictGet_dictSet_self m href nhref,
      by rw [hqe]; exact dictGet_dictSet_self m href nhref,
      by rw [hee]; exact dictGet_dictSet_self m href nhref⟩

/-! ## Claim C2 -/

/-- C2 counterexample: the claim says a TOC entry whose path cannot be
resolved through href_map is dropped from the rewritten TOC.  The code
keeps it: the nav-document rewrite loop (line 274-276 "continue") leaves
the anchor untouched, and the ncx build_li (line 342-343) falls back to
the original src attribute.  Here "missing.xhtml" is not a key of the
href map, yet the rewritten trees still contain the entry verbatim. -/
theorem c2_counterexample :
    rewriteNode [("text/a.xhtml", "v1/text/a.xhtml")] ""
        (.elem "ol" [] (.cons (.elem "li" []
          (.cons (.elem "a" [("href", "missing.xhtml#f")] (.cons (.text "Ch1") .nil)) .nil))
          .nil))
      = .elem "ol" [] (.cons (.elem "li" []
          (.cons (.elem "a" [("href", "missing.xhtml#f")] (.cons (.text "Ch1") .nil)) .nil))
          .nil)
    ∧ buildLiNcx [("text/a.xhtml", "v1/text/a.xhtml")] "" (.mk "Ch1" "missing.xhtml#f" .nil)
      = .elem "li" []
          (.cons (.elem "a" [("href", "missing.xhtml#f")] (.cons (.text "Ch1") .nil)) .nil) := by
  constructor
  · rfl
  · rfl

/-- C2 (amended): a TOC entry whose path portion (fragment stripped)
cannot be resolved through the href map is KEPT with its original
href/src unchanged (not dropped), and rewriting is total so the merge
does not fail; an entry that does resolve gets the mapped href with its
original fragment reattached.  Stated for the nav-document anchor loop
and for the legacy ncx build_li. -/
theorem c2_toc_rewrite_keeps_unresolved
    (m : List (String × String)) (d : String) (attrs : List (String × String))
    (ch : XNodeList) (h path frag : String) (sep : Bool)
    (label src : String) (kids : NavPointList) :
    (dictGet attrs "href" = some h → h ≠ "" → partitionHash h = (path, sep, frag) →
      ¬(path = "" ∨ path = "#") → dictGet m (navFullRel d path) = none →
      rewriteNode m d (.elem "a" attrs ch) = .elem "a" attrs (rewriteNodes m d ch))
    ∧ (∀ nh, dictGet attrs "href" = some h → h ≠ "" → partitionHash h = (path, sep, frag) →
      ¬(path = "" ∨ path = "#") → dictGet m (navFullRel d path) = some nh →
      rewriteNode m d (.elem "a" attrs ch) =
        .elem "a" (dictSet attrs "href" (nh ++ (if sep then "#" ++ frag else "")))
          (rewriteNodes m d ch))
    ∧ (partitionHash src = (path, sep, frag) →
      dictGet m (ncxFullRel d path) = none →
      ∃ rest, buildLiNcx m d (.mk label src kids) =
        .elem "li" [] (.cons (.elem "a" [("href", src)]
          (.cons (.text (if label = "" then src else label)) .nil)) rest))
    ∧ (∀ nh, partitionHash src = (path, sep, frag) →
      dictGet m (ncxFullRel d path) = some nh →
      ∃ rest, buildLiNcx m d (.mk label src kids) =
        .elem "li" [] (.cons (.elem "a"
          [("href", nh ++ (if sep then "#" ++ frag else ""))]
          (.cons (.text (if label = ""
            then nh ++ (if sep then "#" ++ frag else "") else label)) .nil)) rest)) := by
  refine ⟨?_, ?_, ?_, ?_⟩
  · intro hh hne hp hpath hnone
    simp only [rewriteNode, if_pos rfl]
    congr 1
    simp [rewriteAnchorAttrs, hh, hp, hne, hpath, hnone]
  · intro nh hh hne hp hpath hsome
    simp only [rewriteNode, if_pos rfl]
    congr 1
    simp [rewriteAnchorAttrs, hh, hp, hne, hpath, hsome]
  · intro hp hnone
    cases kids with
    | nil =>
      refine ⟨.nil, ?_⟩
      simp only [buildLiNcx, hp, hnone]
    | cons a b =>
      refine ⟨.cons (.elem "ol" [] (buildLiNcxList m d (.cons a b))) .nil, ?_⟩
      simp only [buildLiNcx, hp, hnone]
  · intro nh hp hsome
    cases kids with
    | nil =>
      refine ⟨.nil, ?_⟩
      simp only [buildLiNcx, hp, hsome]
    | cons a b =>
      refine ⟨.cons (.elem "ol" [] (buildLiNcxList m d (.cons a b))) .nil, ?_⟩
      simp only [buildLiNcx, hp, hsome]

theorem c2_toc_rewrite_keeps_unresolved_witness :
    rewriteNode [("a.xhtml", "v1/a.xhtml")] "" (.elem "a" [("href", "missing.xhtml")] .nil) =
      .elem "a" [("href", "missing.xhtml")]
        (rewriteNodes [("a.xhtml", "v1/a.xhtml")] "" .nil) :=
  (c2_toc_rewrite_keeps_unresolved [("a.xhtml", "v1/a.xhtml")] "" [("href", "missing.xhtml")]
    .nil "missing.xhtml" "missing.xhtml" "" false "l" "s" .nil).1
    rfl (by decide) (by decide) (by decide) (by decide)

/-! ## Claim C3 -/

mutual
theorem shape_rewriteNode (m : List (String × String)) (d : String) :
    ∀ n : XNode, shape (rewriteNode m d n) = shape n
  | .text s => rfl
  | .elem tag attrs ch => by
    simp only [rewriteNode, shape]
    exact congrArg (XShape.elem tag) (shape_rewriteNodes m d ch)
theorem shape_rewriteNodes (m : List (String × String)) (d : String) :
    ∀ l : XNodeList, shapes (rewriteNodes m d l) = shapes l
  | .nil => rfl
  | .cons x xs => by
    simp only [rewriteNodes, shapes]
    rw [shape_rewriteNode m d x, shape_rewriteNodes m d xs]
end

/-- C3 counterexample: the claim says the volume subtree in the merged
navigation document is a FLAT list of all links of the toc nav's first
ol.  The code deep-copies the ol and only rewrites hrefs in place
(lines 253-283), so a nested source list stays nested: here the rewritten
ol still has its inner ol under the first li (one direct li, not two). -/
theorem c3_counterexample :
    buildVolumeNavFromNav
        (.elem "nav" [("epub:type", "toc")]
          (.cons (.elem "ol" []
            (.cons (.elem "li" []
              (.cons (.elem "a" [("href", "a.xhtml")] (.cons (.text "A") .nil))
                (.cons (.elem "ol" []
                  (.cons (.elem "li" []
                    (.cons (.elem "a" [("href", "b.xhtml")] (.cons (.text "B") .nil)) .nil))
                    .nil)) .nil))) .nil)) .nil))
        "nav.xhtml" [("a.xhtml", "v1/a.xhtml"), ("b.xhtml", "v1/b.xhtml")] "V1" 0
      = some (.elem "li" []
          (.cons (.elem "span" [] (.cons (.text "V1") .nil))
            (.cons (.elem "ol" []
              (.cons (.elem "li" []
                (.cons (.elem "a" [("href", "v1/a.xhtml")] (.cons (.text "A") .nil))
                  (.cons (.elem "ol" []
                    (.cons (.elem "li" []
                      (.cons (.elem "a" [("href", "v1/b.xhtml")] (.cons (.text "B") .nil)) .nil))
                      .nil)) .nil))) .nil)) .nil)))
    ∧ olHasNestedList
        (.elem "ol" []
          (.cons (.elem "li" []
            (.cons (.elem "a" [("href", "v1/a.xhtml")] (.cons (.text "A") .nil))
              (.cons (.elem "ol" []
                (.cons (.elem "li" []
                  (.cons (.elem "a" [("href", "v1/b.xhtml")] (.cons (.text "B") .nil)) .nil))
                  .nil)) .nil))) .nil)) = true := by
  constructor
  · rfl
  · rfl

/-- C3 (amended): for a volume with a modern navigation document, the
merged subtree is the toc nav's FIRST ol child, deep-copied with every
anchor href rewritten in place, under one synthesized root (span title
plus the ol); the rewrite preserves the source tree's shape, so nesting
is preserved rather than flattened. -/
theorem c3_nav_subtree_preserves_nesting (m : List (String × String))
    (volTitle navHrefRel : String) (volIndex : Nat) (tag : String)
    (attrs : List (String × String)) (ch : XNodeList) (ol : XNode) :
    (∀ n : XNode, shape (rewriteNode m (parentDir navHrefRel) n) = shape n)
    ∧ (firstOl ch = some ol →
        buildVolumeNavFromNav (.elem tag attrs ch) navHrefRel m volTitle volIndex =
          some (.elem "li" []
            (.cons (.elem "span" []
              (.cons (.text (if volTitle = ""
                then "第" ++ natToDec (volIndex + 1) ++ "卷" else volTitle)) .nil))
              (.cons (rewriteNode m (parentDir navHrefRel) ol) .nil)))
        ∧ shape (rewriteNode m (parentDir navHrefRel) ol) = shape ol) := by
  constructor
  · exact shape_rewriteNode m (parentDir navHrefRel)
  · intro hol
    constructor
    · simp only [buildVolumeNavFromNav, hol]
    · exact shape_rewriteNode m (parentDir navHrefRel) ol

theorem c3_nav_subtree_preserves_nesting_witness :
    buildVolumeNavFromNav
        (.elem "nav" [] (.cons (.elem "ol" [] .nil) .nil)) "nav.xhtml" [] "T" 0 =
      some (.elem "li" []
        (.cons (.elem "span" [] (.cons (.text "T") .nil))
          (.cons (rewriteNode [] (parentDir "nav.xhtml") (.elem "ol" [] .nil)) .nil))) :=
  ((c3_nav_subtree_preserves_nesting [] "T" "nav.xhtml" 0 "nav" []
    (.cons (.elem "ol" [] .nil) .nil) (.elem "ol" [] .nil)).2 (by rfl)).1

/-! ## Claim C7 -/

theorem fallbackLis_eq_chapterLis (idToHref : List (String × String)) :
    ∀ (spine : List (List (String × String))) (idx : Nat),
    fallbackLis idToHref spine idx = chapterLis (resolvedFallbackHrefs idToHref spine) idx := by
  intro spine
  induction spine with
  | nil => intro idx; rfl
  | cons ir rest ih =>
    intro idx
    cases hr : resolveFallbackRef idToHref ir with
    | none =>
      simp [fallbackLis, resolvedFallbackHrefs, List.filterMap_cons, hr, ih,
        resolvedFallbackHrefs]
    | some h =>
      simp [fallbackLis, resolvedFallbackHrefs, List.filterMap_cons, hr, chapterLis, ih]

theorem chapterLis_length : ∀ (hrefs : List String) (idx : Nat),
    (chapterLis hrefs idx).length = hrefs.length := by
  intro hrefs
  induction hrefs with
  | nil => intro idx; rfl
  | cons h t ih => intro idx; simp [chapterLis, ih]

/-- C7 counterexample: the claim says the fallback subtree has exactly one
entry per spine itemref.  An itemref whose idref is not in id_to_href is
skipped (lines 379-384), so a volume with one spine itemref "ghost" and
an empty manifest gets an empty chapter list. -/
theorem c7_counterexample :
    fallbackLis [] [[("idref", "ghost")]] 1 = []
    ∧ ([[("idref", "ghost")]] : List (List (String × String))).length = 1
    ∧ buildVolumeNavLiFallback [[("idref", "ghost")]] [] "Vol" 0 =
        .elem "li" []
          (.cons (.elem "span" [] (.cons (.text "Vol") .nil))
            (.cons (.elem "ol" [] .nil) .nil)) := by
  refine ⟨rfl, rfl, rfl⟩

/-- C7 (amended): for a volume with neither navigation document nor ncx
the orchestrator uses the spine fallback, whose subtree contains exactly
one entry per spine itemref THAT RESOLVES through id_to_href to a
non-empty href, in spine order, titled 章节 1, 章节 2, ... and linked to
the resolved href; unresolvable itemrefs are skipped. -/
theorem c7_fallback_one_entry_per_resolvable_ref (idToHref : List (String × String))
    (spine : List (List (String × String))) (idx : Nat) (volTitle : String) (fb : XNode) :
    fallbackLis idToHref spine idx = chapterLis (resolvedFallbackHrefs idToHref spine) idx
    ∧ (fallbackLis idToHref spine idx).length = (resolvedFallbackHrefs idToHref spine).length
    ∧ chooseVolumeNav none none volTitle fb = fb := by
  refine ⟨fallbackLis_eq_chapterLis idToHref spine idx, ?_, rfl⟩
  rw [fallbackLis_eq_chapterLis idToHref spine idx]
  exact chapterLis_length _ _

/-! ## Claim C8 -/

theorem ensureInputPaths_error (isFile : String → Bool) :
    ∀ l : List String, (∃ p, p ∈ l ∧ isFile p = false) →
    ∃ q, q ∈ l ∧ isFile q = false ∧
      ensureInputPaths isFile l = Except.error (MergeError.inputNotFound q) := by
  intro l
  induction l with
  | nil => rintro ⟨p, hp, _⟩; cases hp
  | cons x xs ih =>
    rintro ⟨p, hp, hpf⟩
    by_cases hx : isFile x = true
    · have hpxs : p ∈ xs := by
        rcases List.mem_cons.mp hp with h | h
        · rw [← h] at hx
          rw [hpf] at hx
          cases hx
        · exact h
      obtain ⟨q, hq, hqf, herr⟩ := ih ⟨p, hpxs, hpf⟩
      refine ⟨q, by simp [hq], hqf, ?_⟩
      simp [ensureInputPaths, hx, herr]
    · have hxf : isFile x = false := by simpa using hx
      exact ⟨x, by simp, hxf, by simp [ensureInputPaths, hxf]⟩

/-- C8: the merge entry point fails with noInput (the
SystemExit of line 433) when the volume list is empty, and with
inputNotFound (the FileNotFoundError of line 56) when a named input is
not a regular file; in both cases nothing has been written to the output
archive (the write trace is empty). -/
theorem c8_merge_input_validation (isFile : String → Bool) (load : String → VolumeData)
    (inputs : List String) :
    (inputs = [] → mergeEpubsModel isFile load inputs = ([], Except.error MergeError.noInput))
    ∧ (∀ p, p ∈ inputs → isFile p = false →
      ∃ q, q ∈ inputs ∧ isFile q = false ∧
        mergeEpubsModel isFile load inputs =
          ([], Except.error (MergeError.inputNotFound q))) := by
  constructor
  · intro h
    simp [mergeEpubsModel, h]
  · intro p hp hpf
    have hne : ¬inputs = [] := by intro h; rw [h] at hp; cases hp
    obtain ⟨q, hq, hqf, herr⟩ := ensureInputPaths_error isFile inputs ⟨p, hp, hpf⟩
    refine ⟨q, hq, hqf, ?_⟩
    simp [mergeEpubsModel, hne, herr]

theorem c8_merge_input_validation_witness :
    ∃ q, q ∈ ["missing.epub"] ∧ (fun _ => false) q = false ∧
      mergeEpubsModel (fun _ => false) (fun _ => ⟨[], "content.opf", [], []⟩)
        ["missing.epub"] = ([], Except.error (MergeError.inputNotFound q)) :=
  (c8_merge_input_validation (fun _ => false) (fun _ => ⟨[], "content.opf", [], []⟩)
    ["missing.epub"]).2 "missing.epub" (by simp) rfl

/-! ## Claim C9 -/

/-- C9 (code-bug evidence): the spec's TOC preview entry point
extract_toc_as_flat_list is not defined by merge_epubs.py at all, so the
GUI's `from merge_epubs import ...` fails and every backend name is
rebound to a stub; the preview stub returns the empty list for every
path instead of the archive's TOC entries. -/
theorem c9_toc_preview_entry_point_missing :
    "extract_toc_as_flat_list" ∉ mergeEpubsModuleExports
    ∧ guiImportSucceeds = false
    ∧ extract_toc_as_flat_list "book.epub" = [] := by
  refine ⟨by decide, by decide, rfl⟩
